import Mathlib

/-!
Shallow embedding of the Azuki TAC intermediate representation and its editing
operations, with theorems checking the natural-language specification against
the code.

The repository carries two generations of the data model:

* `crates/tac/src/lib.rs` stores instructions and basic blocks in two arenas
  inside `TacFunc`; instructions form an intrusive doubly linked list.  This is
  embedded below at top level (`TacFunc`, `Tac`, `BasicBlock`, ...).
* `crates/tac/src/builder/func_editor.rs` targets an earlier `TacFunc` whose
  blocks live in a graph (`basic_blocks`) with explicit successor edges.  That
  editor is embedded in the `Editor` namespace.
* `crates/tacgen/src/lib.rs` drives a `FuncBuilder` (not present under the
  sources) against that older model; the visitor methods are embedded in the
  `Gen` namespace with the builder operations modelled from the spec.

Arenas are modelled as lists indexed by allocation order: instruction ids are
positions in the list, and block ids in the arena model are positions shifted
by one so that `0` is the reserved null handle (`BBId::default()`).
-/

abbrev InstId := Nat

abbrev BBId := Nat

/-- Reserved null handle: `BBId::default()` never refers to a live block. -/
def BBId.default : BBId := 0

/-- Result type of instructions.  Modelled from the spec: `ty.rs` is not under
`src/`; spec section 3 describes `Ty` as a small enumeration of numeric kinds
plus a unit type, and `tacgen` uses an integer type `Ty::Int`. -/
inductive Ty
  | int
  | unit
deriving DecidableEq, Repr

abbrev Immediate := Int

/-- Either a reference to the instruction producing a value or an immediate. -/
inductive Value
  | Dest (i : InstId)
  | Imm (v : Immediate)
deriving DecidableEq, Repr

inductive BinaryOp
  | Add | Sub | Mul | Div | Lt | Gt | Le | Ge | Eq | Ne
deriving DecidableEq, Repr

structure BinaryInst where
  op : BinaryOp
  lhs : Value
  rhs : Value
deriving DecidableEq, Repr

structure FunctionCall where
  name : String
  params : List Value
deriving DecidableEq, Repr

/-- Kinds of an instruction.  The `Phi` map `BTreeMap<BBId, InstId>` is
embedded as an association list. -/
inductive InstKind
  | Binary (b : BinaryInst)
  | FunctionCall (f : FunctionCall)
  | Assign (v : Value)
  | Phi (sources : List (BBId × InstId))
  | Param (i : Nat)
  | Dead
deriving DecidableEq, Repr

structure Inst where
  kind : InstKind
  ty : Ty
deriving DecidableEq, Repr

/-- Branch terminators of `lib.rs`. -/
inductive Branch
  | Return (v : Option Value)
  | Jump (t : BBId)
  | CondJump (cond : Value) (target : BBId)
deriving DecidableEq, Repr

/-- Targets of a branch, from `Branch::target_iter` in `lib.rs`: no block for
`Return`, the single target otherwise. -/
def Branch.target_iter : Branch → List BBId
  | .Return _ => []
  | .Jump t => [t]
  | .CondJump _ t => [t]

/-- A TAC instruction together with its intrusive linked-list envelope. -/
structure Tac where
  inst : Inst
  bb : BBId
  prev : Option InstId
  next : Option InstId
deriving DecidableEq, Repr

/-- Constructor `Tac::independent`: no neighbours. -/
def Tac.independent (inst : Inst) (bb : BBId) : Tac :=
  { inst := inst, bb := bb, prev := none, next := none }

/-- Basic block of the arena model in `lib.rs`. -/
structure BasicBlock where
  head : Option InstId := none
  tail : Option InstId := none
  prev : Option BBId := none
  next : Option BBId := none
  jumps : List Branch := []
deriving DecidableEq, Repr

/-- Arena-based `TacFunc` of `lib.rs`.  Instruction ids are positions in
`instructions_arena`; block id `b` (with `b` nonzero) lives at position
`b - 1` of `basic_block_arena`. -/
structure TacFunc where
  name : String := ""
  ty : Ty := .unit
  instructions_arena : List Tac := []
  basic_block_arena : List BasicBlock := []
  first_block : Option BBId := none
deriving DecidableEq, Repr

def TacFunc.tac_get? (f : TacFunc) (i : InstId) : Option Tac :=
  f.instructions_arena.get? i

def TacFunc.tac_set (f : TacFunc) (i : InstId) (t : Tac) : TacFunc :=
  { f with instructions_arena := f.instructions_arena.set i t }

/-- `TacFunc::inst_new`: insert a fresh instruction, freestanding and with the
null block handle. -/
def TacFunc.inst_new (f : TacFunc) (inst : Inst) : InstId × TacFunc :=
  (f.instructions_arena.length,
   { f with instructions_arena := f.instructions_arena ++ [Tac.independent inst BBId.default] })

def TacFunc.bb_get? (f : TacFunc) (b : BBId) : Option BasicBlock :=
  if b = BBId.default then none else f.basic_block_arena.get? (b - 1)

def TacFunc.bb_set (f : TacFunc) (b : BBId) (bb : BasicBlock) : TacFunc :=
  { f with basic_block_arena := f.basic_block_arena.set (b - 1) bb }

/-- `TacFunc::bb_new`: insert a default basic block, returning its id. -/
def TacFunc.bb_new (f : TacFunc) : BBId × TacFunc :=
  (f.basic_block_arena.length + 1,
   { f with basic_block_arena := f.basic_block_arena ++ [{}] })

/-- `TacFunc::inst_split_off_after`: take `pos.next`, leaving `pos.next = None`.
Returns the old `next` (head of the split-off chain). -/
def TacFunc.inst_split_off_after (f : TacFunc) (pos : InstId) : Option (Option InstId × TacFunc) :=
  (f.tac_get? pos).map fun t => (t.next, f.tac_set pos { t with next := none })

/-- `TacFunc::inst_connect` via the arena primitive `connect`.  Modelled from
the spec: `linkedlist.rs` is not under `src/`; spec section 4.1 describes
`connect(tail, head)` as linking two items already in the arena, panicking
(here `none`) when `tail = head`. -/
def TacFunc.inst_connect (f : TacFunc) (tail head : InstId) : Option TacFunc :=
  if tail = head then none
  else do
    let t ← f.tac_get? tail
    let h ← f.tac_get? head
    let f := f.tac_set tail { t with next := some head }
    some (f.tac_set head { h with prev := some tail })

/-- The `fix bb pointers` loops of `bb_split_after` and `bb_connect`: walk the
chain from `start` rewriting each instruction's `bb` field.  The source loop
terminates because chains are acyclic; the fuel bounds the walk by the arena
size, and `none` models a walk that would not terminate. -/
def TacFunc.rewrite_bb_pointers : Nat → TacFunc → Option InstId → BBId → Option TacFunc
  | _, f, none, _ => some f
  | 0, _, some _, _ => none
  | fuel + 1, f, some i, bbid =>
    match f.tac_get? i with
    | none => none
    | some t =>
      TacFunc.rewrite_bb_pointers fuel (f.tac_set i { t with bb := bbid }) t.next bbid

/-- `TacFunc::bb_split_after` from `lib.rs`, line by line: split off the chain
after `inst`, `take()` the original tail (leaving `None` behind), optionally
move the jumps, allocate `new_bb`, and rewrite the moved `bb` pointers. -/
def TacFunc.bb_split_after (f : TacFunc) (inst : InstId) (transfer_branches : Bool) :
    Option (BBId × TacFunc) := do
  let (after_head, f) ← f.inst_split_off_after inst
  let t ← f.tac_get? inst
  let first_bb_id := t.bb
  let first_bb ← f.bb_get? first_bb_id
  let orig_tail := first_bb.tail
  let jumps := if transfer_branches then first_bb.jumps else []
  let first_bb :=
    { first_bb with tail := none,
                    jumps := if transfer_branches then [] else first_bb.jumps }
  let f := f.bb_set first_bb_id first_bb
  let (new_bb_id, f) := f.bb_new
  let f := f.bb_set new_bb_id { head := after_head, tail := orig_tail, jumps := jumps }
  let f ← TacFunc.rewrite_bb_pointers f.instructions_arena.length f after_head new_bb_id
  some (new_bb_id, f)

/-- `TacFunc::bb_connect` from `lib.rs`: move `back`'s jumps into `front`
(returning `front`'s old jumps), then append `back`'s instruction chain to
`front`, treating `front` as empty when its `tail` is `None`. -/
def TacFunc.bb_connect (f : TacFunc) (front back : BBId) : Option (List Branch × TacFunc) :=
  if front = back then none
  else do
    let front_bb ← f.bb_get? front
    let back_bb ← f.bb_get? back
    let back_jump := back_bb.jumps
    let back_bb := { back_bb with jumps := [] }
    let branches := front_bb.jumps
    let front_bb := { front_bb with jumps := back_jump }
    let front_tail := front_bb.tail
    let back_head := back_bb.head
    match back_head with
    | none =>
      let f := f.bb_set front front_bb
      let f := f.bb_set back back_bb
      some (branches, f)
    | some head =>
      match front_tail with
      | some tail =>
        let front_bb := { front_bb with tail := back_bb.tail }
        let back_bb := { back_bb with head := none, tail := none }
        let f := f.bb_set front front_bb
        let f := f.bb_set back back_bb
        let f ← f.inst_connect tail head
        let f ← TacFunc.rewrite_bb_pointers f.instructions_arena.length f back_head front
        some (branches, f)
      | none =>
        let front_bb := { front_bb with head := back_bb.head, tail := back_bb.tail }
        let back_bb := { back_bb with head := none, tail := none }
        let f := f.bb_set front front_bb
        let f := f.bb_set back back_bb
        let f ← TacFunc.rewrite_bb_pointers f.instructions_arena.length f back_head front
        some (branches, f)

/-- Shorthand for the concrete instructions of scenario S5. -/
def mkAssign (k : Int) : Inst :=
  { kind := .Assign (.Imm k), ty := .int }

/-- Instruction chain `i1..i5` of scenario S5, at ids `0..4`, all in block 1. -/
def s5chain : List Tac :=
  [ { inst := mkAssign 1, bb := 1, prev := none, next := some 1 },
    { inst := mkAssign 2, bb := 1, prev := some 0, next := some 2 },
    { inst := mkAssign 3, bb := 1, prev := some 1, next := some 3 },
    { inst := mkAssign 4, bb := 1, prev := some 2, next := some 4 },
    { inst := mkAssign 5, bb := 1, prev := some 3, next := none } ]

/-- The two jumps of scenario S5. -/
def s5jumps : List Branch :=
  [.CondJump (.Imm 1) 7, .Jump 8]

/-- Scenario S5: one block (id 1) holding `i1..i5` and two jumps. -/
def S5func : TacFunc :=
  { name := "s5",
    instructions_arena := s5chain,
    basic_block_arena := [ { head := some 0, tail := some 4, jumps := s5jumps } ],
    first_block := some 1 }

/-- Splitting S5 after `i3` (id 2) with `transfer_branches = true`. -/
def s5_split : Option (BBId × TacFunc) :=
  S5func.bb_split_after 2 true

/-- The S5 round trip: split after `i3`, then connect the front block to the
new block. -/
def s5_roundtrip : Option TacFunc :=
  s5_split.bind fun p => (p.2.bb_connect 1 p.1).map (·.2)

namespace Editor

/-- Basic block of the pre-refactor model targeted by `func_editor.rs`: no
inter-block links, just the jumps list and the instruction chain ends. -/
structure BasicBlock where
  jumps : List Branch := []
  head : Option InstId := none
  tail : Option InstId := none
deriving DecidableEq, Repr

abbrev EdgeId := Nat

/-- Pre-refactor `TacFunc` as used by `func_editor.rs`: blocks are nodes of a
graph `basic_blocks` carrying explicit successor edges, and instructions live
in an arena.  Modelled from the spec: the declaration of that `TacFunc` is not
under `src/`; per spec sections 3 and 4.1 handles are stable, so the graph is
embedded as a node list (node id = position) plus an edge list of
`(edge id, source, target)` triples with a fresh-id counter. -/
structure TacFunc where
  name : String := ""
  ty : Ty := .unit
  blocks : List Editor.BasicBlock := []
  edges : List (EdgeId × BBId × BBId) := []
  next_edge_id : EdgeId := 0
  insts : List Tac := []
deriving DecidableEq, Repr

/-- Graph node lookup (`node_weight`). -/
def TacFunc.node_weight (f : Editor.TacFunc) (b : BBId) : Option Editor.BasicBlock :=
  f.blocks.get? b

def TacFunc.set_block (f : Editor.TacFunc) (b : BBId) (bb : Editor.BasicBlock) :
    Editor.TacFunc :=
  { f with blocks := f.blocks.set b bb }

/-- Graph `add_edge`: append a fresh-id edge. -/
def TacFunc.add_edge (f : Editor.TacFunc) (src tgt : BBId) : Editor.TacFunc :=
  { f with edges := f.edges ++ [(f.next_edge_id, src, tgt)],
           next_edge_id := f.next_edge_id + 1 }

/-- Graph `remove_edge`: drop the edge with the given id. -/
def TacFunc.remove_edge (f : Editor.TacFunc) (e : EdgeId) : Editor.TacFunc :=
  { f with edges := f.edges.filter fun ed => ed.1 ≠ e }

/-- Modelled from the spec: the pre-refactor `TacFunc::tac_new` is not under
`src/`; per spec section 4.2 it allocates the instruction in the arena,
freestanding, with its `bb` field set to the given block. -/
def TacFunc.tac_new (f : Editor.TacFunc) (inst : Inst) (bb : BBId) : InstId × Editor.TacFunc :=
  (f.insts.length,
   { f with insts := f.insts ++ [{ inst := inst, bb := bb, prev := none, next := none }] })

/-- Splicing `x` right after `anchor` on the raw instruction heap. -/
def attach_after_insts (insts : List Tac) (anchor x : InstId) : Option (List Tac) := do
  let a ← insts.get? anchor
  let xt ← insts.get? x
  let insts := insts.set x { xt with prev := some anchor, next := a.next }
  let insts := insts.set anchor { a with next := some x }
  match a.next with
  | none => some insts
  | some n => do
    let nt ← insts.get? n
    some (insts.set n { nt with prev := some x })

/-- Modelled from the spec: the pre-refactor `TacFunc::tac_set_after` is not
under `src/`; per spec section 4.1 (`attach_after`) it splices `x` right after
`anchor` in the chain. -/
def TacFunc.tac_set_after (f : Editor.TacFunc) (anchor x : InstId) : Option Editor.TacFunc :=
  (Editor.attach_after_insts f.insts anchor x).map fun insts => { f with insts := insts }

/-- Splicing `x` right before `anchor` on the raw instruction heap. -/
def attach_before_insts (insts : List Tac) (anchor x : InstId) : Option (List Tac) := do
  let a ← insts.get? anchor
  let xt ← insts.get? x
  let insts := insts.set x { xt with next := some anchor, prev := a.prev }
  let insts := insts.set anchor { a with prev := some x }
  match a.prev with
  | none => some insts
  | some p => do
    let pt ← insts.get? p
    some (insts.set p { pt with next := some x })

/-- Modelled from the spec: the pre-refactor `TacFunc::tac_set_before` is not
under `src/`; per spec section 4.1 (`attach_before`) it splices `x` right
before `anchor` in the chain. -/
def TacFunc.tac_set_before (f : Editor.TacFunc) (anchor x : InstId) : Option Editor.TacFunc :=
  (Editor.attach_before_insts f.insts anchor x).map fun insts => { f with insts := insts }

/-- Error kinds surfaced at the boundary (`err.rs` interface, spec section 6). -/
inductive Error
  | NoSuchBB (b : BBId)
  | NoSuchInst (i : InstId)
deriving DecidableEq, Repr

abbrev TacResult (α : Type) := Except Editor.Error α

/-- Cursor-based editor state of `func_editor.rs`.  Rust methods mutate through
`&mut self`; here every operation returns the updated editor next to its
result, so the state on an error path is the state the Rust code leaves
behind. -/
structure FuncEditor where
  func : Editor.TacFunc
  current_bb : BBId
  current_idx : Option InstId
deriving DecidableEq, Repr

/-- `FuncEditor::new_bb`: add a free-standing empty basic block. -/
def FuncEditor.new_bb (e : FuncEditor) : BBId × FuncEditor :=
  (e.func.blocks.length,
   { e with func := { e.func with blocks := e.func.blocks ++ [{}] } })

/-- `FuncEditor::set_current_bb`: reposition the cursor to the tail of
`bb_id`; returns whether the position was unchanged. -/
def FuncEditor.set_current_bb (e : FuncEditor) (bb_id : BBId) :
    FuncEditor × Editor.TacResult Bool :=
  match e.func.node_weight bb_id with
  | none => (e, .error (.NoSuchBB bb_id))
  | some bb =>
    let same_pos : Bool := decide (bb_id = e.current_bb ∧ bb.tail = e.current_idx)
    ({ e with current_bb := bb_id, current_idx := bb.tail }, .ok same_pos)

/-- `FuncEditor::set_current_bb_start`: reposition the cursor to the head of
`bb_id`; returns whether the position was unchanged. -/
def FuncEditor.set_current_bb_start (e : FuncEditor) (bb_id : BBId) :
    FuncEditor × Editor.TacResult Bool :=
  match e.func.node_weight bb_id with
  | none => (e, .error (.NoSuchBB bb_id))
  | some bb =>
    let same_pos : Bool := decide (bb_id = e.current_bb ∧ bb.head = e.current_idx)
    ({ e with current_bb := bb_id, current_idx := bb.head }, .ok same_pos)

/-- `FuncEditor::insert_after_current_place`; `none` models the panics of the
`unwrap` calls on invalid state. -/
def FuncEditor.insert_after_current_place (e : FuncEditor) (inst : Inst) :
    Option (FuncEditor × InstId) :=
  let (idx, func) := e.func.tac_new inst e.current_bb
  match e.current_idx with
  | some cur_idx =>
    match func.tac_set_after cur_idx idx with
    | none => none
    | some func =>
      match func.node_weight e.current_bb with
      | none => none
      | some bb =>
        let bb := if bb.tail = some cur_idx then { bb with tail := some idx } else bb
        some ({ e with func := func.set_block e.current_bb bb,
                       current_idx := some idx }, idx)
  | none =>
    match func.node_weight e.current_bb with
    | none => none
    | some bb =>
      let bb2 := { bb with head := some idx, tail := some idx }
      some ({ e with func := func.set_block e.current_bb bb2,
                     current_idx := some idx }, idx)

/-- `FuncEditor::insert_before_current_place`. -/
def FuncEditor.insert_before_current_place (e : FuncEditor) (inst : Inst) :
    Option (FuncEditor × InstId) :=
  let (idx, func) := e.func.tac_new inst e.current_bb
  match e.current_idx with
  | some cur_idx =>
    match func.tac_set_before cur_idx idx with
    | none => none
    | some func =>
      match func.node_weight e.current_bb with
      | none => none
      | some bb =>
        let bb := if bb.head = some cur_idx then { bb with head := some idx } else bb
        some ({ e with func := func.set_block e.current_bb bb,
                       current_idx := some idx }, idx)
  | none =>
    match func.node_weight e.current_bb with
    | none => none
    | some bb =>
      let bb2 := { bb with head := some idx, tail := some idx }
      some ({ e with func := func.set_block e.current_bb bb2,
                     current_idx := some idx }, idx)

/-- `FuncEditor::insert_at_end_of`: retarget the cursor to the end of `bb_id`,
insert, and restore the cursor if it had moved. -/
def FuncEditor.insert_at_end_of (e : FuncEditor) (inst : Inst) (bb_id : BBId) :
    Option (FuncEditor × Editor.TacResult InstId) :=
  let curr_bb := e.current_bb
  let curr_idx := e.current_idx
  match e.set_current_bb bb_id with
  | (e, .error er) => some (e, .error er)
  | (e, .ok same_pos) =>
    match e.insert_after_current_place inst with
    | none => none
    | some (e, pos) =>
      let e := if same_pos then e
               else { e with current_bb := curr_bb, current_idx := curr_idx }
      some (e, .ok pos)

/-- `FuncEditor::insert_at_start_of`: retarget the cursor to the start of
`bb_id`, insert, and restore the cursor if it had moved. -/
def FuncEditor.insert_at_start_of (e : FuncEditor) (inst : Inst) (bb_id : BBId) :
    Option (FuncEditor × Editor.TacResult InstId) :=
  let curr_bb := e.current_bb
  let curr_idx := e.current_idx
  match e.set_current_bb_start bb_id with
  | (e, .error er) => some (e, .error er)
  | (e, .ok same_pos) =>
    match e.insert_before_current_place inst with
    | none => none
    | some (e, pos) =>
      let e := if same_pos then e
               else { e with current_bb := curr_bb, current_idx := curr_idx }
      some (e, .ok pos)

/-- `FuncEditor::add_branch`: error on an unknown block, otherwise record one
successor edge per branch target and append the branch to the jumps list. -/
def FuncEditor.add_branch (e : FuncEditor) (inst : Branch) (bb_id : BBId) :
    FuncEditor × Editor.TacResult Unit :=
  match e.func.node_weight bb_id with
  | none => (e, .error (.NoSuchBB bb_id))
  | some bb =>
    let func := inst.target_iter.foldl (fun fc t => fc.add_edge bb_id t) e.func
    let func := func.set_block bb_id { bb with jumps := bb.jumps ++ [inst] }
    ({ e with func := func }, .ok ())

/-- `FuncEditor::succ_edge_of_bb`: ids of the outgoing edges of `bb_id`. -/
def FuncEditor.succ_edge_of_bb (e : FuncEditor) (bb_id : BBId) : List EdgeId :=
  (e.func.edges.filter fun ed => ed.2.1 = bb_id).map (·.1)

/-- `FuncEditor::succ_of_bb`: successor blocks of `bb_id`. -/
def FuncEditor.succ_of_bb (e : FuncEditor) (bb_id : BBId) : List BBId :=
  (e.func.edges.filter fun ed => ed.2.1 = bb_id).map (·.2.2)

/-- `FuncEditor::modify_branch`: remove the outgoing edges of `bb_id` (before
the existence check, as in the source!), apply `f` to the jumps list, then
re-add one edge per branch target. -/
def FuncEditor.modify_branch (e : FuncEditor) (bb_id : BBId)
    (f : List Branch → List Branch) : FuncEditor × Editor.TacResult Unit :=
  let func := (e.succ_edge_of_bb bb_id).foldl Editor.TacFunc.remove_edge e.func
  let e := { e with func := func }
  match e.func.node_weight bb_id with
  | none => (e, .error (.NoSuchBB bb_id))
  | some bb =>
    let new_jumps := f bb.jumps
    let func := e.func.set_block bb_id { bb with jumps := new_jumps }
    let func := ((new_jumps.map Branch.target_iter).flatten).foldl
      (fun fc t => fc.add_edge bb_id t) func
    ({ e with func := func }, .ok ())

end Editor

namespace Gen

/-- Jump target of the `tacgen`-era branch encoding: a block id plus a
parameter map (always empty in the front end via `empty_jump_target`).  The
element type of `params` is not visible from the sources; pairs of naturals
stand in for it. -/
structure BranchTarget where
  bb : Nat
  params : List (Nat × Nat) := []
deriving DecidableEq, Repr

/-- `empty_jump_target` from `tacgen/src/lib.rs`. -/
def empty_jump_target (bb_id : Nat) : Gen.BranchTarget :=
  { bb := bb_id, params := [] }

/-- Branch terminators as used by `tacgen`. -/
inductive Branch
  | Return (v : Option Value)
  | Jump (t : Gen.BranchTarget)
  | CondJump (cond : Value) (target : Gen.BranchTarget)
deriving DecidableEq, Repr

/-- Basic block as observed through the `FuncBuilder`: an instruction body and
the outgoing jumps list. -/
structure BasicBlock where
  body : List Inst := []
  jumps : List Gen.Branch := []
deriving DecidableEq, Repr

/-- Modelled from the spec: `tac::builder::FuncBuilder` is not under `src/`.
Per spec sections 4.2 and 4.3 it layers the SSA builder state (`filled` and
`sealed` sets) over the editor state (blocks plus a cursor).  Block ids are
`usize` positions, as in `empty_jump_target`. -/
structure FuncBuilder where
  blocks : List Gen.BasicBlock := []
  filled : List Nat := []
  sealed : List Nat := []
  current_bb : Nat := 0
deriving DecidableEq, Repr

/-- Modelled from the spec: `FuncBuilder::new_bb` creates a free-standing
empty block and returns its id. -/
def FuncBuilder.new_bb (s : Gen.FuncBuilder) : Nat × Gen.FuncBuilder :=
  (s.blocks.length, { s with blocks := s.blocks ++ [{}] })

/-- Modelled from the spec: `FuncBuilder::set_current_bb` repositions the
cursor.  Only the current block id matters to the visitors below. -/
def FuncBuilder.set_current_bb (s : Gen.FuncBuilder) (bb : Nat) : Gen.FuncBuilder :=
  { s with current_bb := bb }

/-- Modelled from the spec: `FuncBuilder::add_branch` appends the branch to
the jumps list of `bb`.  The visitors `unwrap()` the result and always pass a
live block, so the missing-block case is a no-op here. -/
def FuncBuilder.add_branch (s : Gen.FuncBuilder) (br : Gen.Branch) (bb : Nat) :
    Gen.FuncBuilder :=
  match s.blocks.get? bb with
  | none => s
  | some b => { s with blocks := s.blocks.set bb { b with jumps := b.jumps ++ [br] } }

/-- Modelled from the spec: `FuncBuilder::mark_filled` adds `bb` to the filled
set. -/
def FuncBuilder.mark_filled (s : Gen.FuncBuilder) (bb : Nat) : Gen.FuncBuilder :=
  { s with filled := s.filled.insert bb }

/-- Modelled from the spec: `FuncBuilder::mark_sealed` adds `bb` to the sealed
set. -/
def FuncBuilder.mark_sealed (s : Gen.FuncBuilder) (bb : Nat) : Gen.FuncBuilder :=
  { s with sealed := s.sealed.insert bb }

/-- The prefix of `FuncCompiler::visit_if_stmt` up to (and including) moving
the cursor into the then-block: `s` is the state after the condition was
evaluated and `v` its value.  Line by line from the source: read `last_bb`,
call `mark_sealed` on it twice (the source calls `mark_sealed(last_bb)` twice
and never `mark_filled`), create `if_bb`, emit `CondJump(v, if_bb)` in
`last_bb`, move the cursor to `if_bb`. -/
def if_state_before_then (s : Gen.FuncBuilder) (v : Value) : Gen.FuncBuilder :=
  let last_bb := s.current_bb
  let s := s.mark_sealed last_bb
  let s := s.mark_sealed last_bb
  let (if_bb, s) := s.new_bb
  let s := s.add_branch (.CondJump v (Gen.empty_jump_target if_bb)) last_bb
  s.set_current_bb if_bb

/-- `FuncCompiler::visit_if_stmt` from `tacgen/src/lib.rs`.  The recursive
visits of the then-block and else-block are abstracted as state transformers
`thenF` and `elseF` (an absent `elseF` is `IfElseBlock::None`). -/
def visit_if_stmt (s0 : Gen.FuncBuilder) (v : Value)
    (thenF : Gen.FuncBuilder → Gen.FuncBuilder)
    (elseF : Option (Gen.FuncBuilder → Gen.FuncBuilder)) : Gen.FuncBuilder :=
  let last_bb := s0.current_bb
  let s := thenF (Gen.if_state_before_then s0 v)
  let if_end_bb := s.current_bb
  let (next_bb, s) := s.new_bb
  let (else_bbs, s) :=
    match elseF with
    | some ef =>
      let (else_bb, s) := s.new_bb
      let s := s.add_branch (.Jump (Gen.empty_jump_target else_bb)) last_bb
      let s := s.set_current_bb else_bb
      let s := ef s
      (some (else_bb, s.current_bb), s)
    | none =>
      (none, s.add_branch (.Jump (Gen.empty_jump_target next_bb)) last_bb)
  let s := s.add_branch (.Jump (Gen.empty_jump_target next_bb)) if_end_bb
  let s :=
    match else_bbs with
    | some (_, bb) => s.add_branch (.Jump (Gen.empty_jump_target next_bb)) bb
    | none => s
  s.set_current_bb next_bb

/-- `FuncCompiler::visit_return_stmt` from `tacgen/src/lib.rs`: `s` is the
state after the optional return value was evaluated and `val` its result.
The source emits `Return(val)` in the current block, creates a fresh block and
moves the cursor there; it never calls `mark_filled`. -/
def visit_return_stmt (s : Gen.FuncBuilder) (val : Option Value) : Gen.FuncBuilder :=
  let s := s.add_branch (.Return val) s.current_bb
  let (next_bb, s) := s.new_bb
  s.set_current_bb next_bb

/-- A fresh builder state with a single empty block as the current block. -/
def genS0 : Gen.FuncBuilder :=
  { blocks := [{}], filled := [], sealed := [], current_bb := 0 }

end Gen

/-- A small live editor state used to witness the editor theorems: two blocks,
one successor edge from block 0 to block 1, no instructions. -/
def egEditor : Editor.FuncEditor :=
  { func := { blocks := [ { jumps := [.Jump 1] }, {} ],
              edges := [(0, 0, 1)], next_edge_id := 1, insts := [] },
    current_bb := 0, current_idx := none }
/-- C2: after `bb_split_after(i3, true)` on a block holding `i1..i5`, the code
does NOT restore the head/tail invariant of the spec: the original block keeps
`head = i1` but its `tail` is left `None` (the claim expects `Some i3`), and the
moved head `i4` keeps `prev = Some i3` (the claim expects `None`).  The parts
that do hold: `i3.next = None`, the new block's tail is the former tail `i5`,
and the moved instructions' `bb` fields name the new block. -/
theorem bb_split_after_breaks_invariant :
    (s5_split.bind fun p => (p.2.bb_get? 1).map fun b => (b.head, b.tail))
      = some (some 0, none) ∧
    ((s5_split.bind fun p => p.2.tac_get? 2).map fun t => t.next) = some none ∧
    ((s5_split.bind fun p => p.2.tac_get? 3).map fun t => (t.prev, t.bb))
      = some (some 2, 2) ∧
    ((s5_split.bind fun p => p.2.tac_get? 4).map fun t => t.bb) = some 2 ∧
    (s5_split.bind fun p => (p.2.bb_get? p.1).map fun b => (b.head, b.tail, b.jumps))
      = some (some 3, some 4, s5jumps) := by
  decide

/-- C1: the round trip `bb_split_after(i3, true); bb_connect(front, new_bb)`
does NOT restore the front block.  Because the split left `front.tail = None`,
`bb_connect` takes its empty-front path and overwrites `front.head` with `i4`:
the front block ends up holding `[i4, i5]` while `i1..i3` are orphaned
(`i3.next = None`).  The jumps list is restored, and `new_bb` is left empty and
detached, but the instruction order is not `i1..i5` again. -/
theorem bb_split_connect_no_roundtrip :
    (s5_roundtrip.bind fun f => (f.bb_get? 1).map fun b => (b.head, b.tail, b.jumps))
      = some (some 3, some 4, s5jumps) ∧
    ((s5_roundtrip.bind fun f => f.tac_get? 2).map fun t => t.next) = some none ∧
    (s5_roundtrip.bind fun f => (f.bb_get? 2).map fun b =>
        (b.head, b.tail, b.prev, b.next, b.jumps))
      = some (none, none, none, none, []) := by
  refine ⟨by decide, by decide, by decide⟩

/-- C9: every instruction allocated with `TacFunc::inst_new` is freestanding at
creation: it is stored as `Tac::independent inst BBId.default`, so its `prev`
and `next` are `None` and its `bb` is the null handle; its id is fresh. -/
theorem inst_new_freestanding (f : TacFunc) (inst : Inst) :
    (f.inst_new inst).2.tac_get? (f.inst_new inst).1
      = some (Tac.independent inst BBId.default) ∧
    f.tac_get? (f.inst_new inst).1 = none ∧
    (Tac.independent inst BBId.default).prev = none ∧
    (Tac.independent inst BBId.default).next = none ∧
    (Tac.independent inst BBId.default).bb = BBId.default := by
  refine ⟨?_, ?_, rfl, rfl, rfl⟩
  · simp [TacFunc.inst_new, TacFunc.tac_get?, List.get?_eq_getElem?,
      List.getElem?_concat_length]
  · simp [TacFunc.inst_new, TacFunc.tac_get?, List.get?_eq_none]

/-- Helper: setting an existing index makes lookup return the new value. -/
theorem get?_set_same {α : Type} (l : List α) (i : Nat) (x y : α)
    (h : l.get? i = some x) : (l.set i y).get? i = some y := by
  have hi : i < l.length := by
    by_contra hn
    push_neg at hn
    rw [List.get?_eq_none.mpr hn] at h
    cases h
  rw [List.get?_eq_getElem?]
  exact List.getElem?_set_self hi

/-- Helper: removing edges never touches the node list. -/
theorem foldl_remove_edge_blocks (L : List Editor.EdgeId) (f : Editor.TacFunc) :
    (L.foldl Editor.TacFunc.remove_edge f).blocks = f.blocks := by
  induction L generalizing f with
  | nil => rfl
  | cons a L ih => rw [List.foldl_cons, ih]; rfl

/-- Helper: removing a list of edge ids filters out exactly those ids. -/
theorem foldl_remove_edge_edges (L : List Editor.EdgeId) (f : Editor.TacFunc) :
    (L.foldl Editor.TacFunc.remove_edge f).edges
      = f.edges.filter fun ed => decide (ed.1 ∉ L) := by
  induction L generalizing f with
  | nil => simp
  | cons a L ih =>
    rw [List.foldl_cons, ih]
    show (Editor.TacFunc.remove_edge f a).edges.filter _ = _
    unfold Editor.TacFunc.remove_edge
    rw [List.filter_filter]
    apply List.filter_congr
    intro ed _
    simp [List.mem_cons, not_or, Bool.and_comm]

/-- Helper: adding edges never touches the node list. -/
theorem foldl_add_edge_blocks (T : List BBId) (bb : BBId) (f : Editor.TacFunc) :
    (T.foldl (fun fc t => fc.add_edge bb t) f).blocks = f.blocks := by
  induction T generalizing f with
  | nil => rfl
  | cons a T ih => rw [List.foldl_cons, ih]; rfl

/-- Helper: adding one edge per target appends the matching pairs. -/
theorem foldl_add_edge_edges (T : List BBId) (bb : BBId) (f : Editor.TacFunc) :
    ((T.foldl (fun fc t => fc.add_edge bb t) f).edges).map (fun ed => ed.2)
      = f.edges.map (fun ed => ed.2) ++ T.map (fun t => (bb, t)) := by
  induction T generalizing f with
  | nil => simp
  | cons a T ih =>
    rw [List.foldl_cons, ih]
    show (Editor.TacFunc.add_edge f bb a).edges.map _ ++ _ = _
    unfold Editor.TacFunc.add_edge
    simp


/-- Helper: filtering pairs by source commutes with dropping the edge id. -/
theorem map_proj_filter (l : List (Editor.EdgeId × BBId × BBId)) (bb : BBId) :
    (l.map (fun ed => ed.2)).filter (fun pr => pr.1 = bb)
      = (l.filter (fun ed => ed.2.1 = bb)).map (fun ed => ed.2) := by
  induction l with
  | nil => rfl
  | cons a l ih => by_cases h : a.2.1 = bb <;> simp [h, ih]

/-- Helper: after the outgoing edge ids of `bb_id` are removed, no edge with
source `bb_id` remains. -/
theorem removed_edges_no_src (e : Editor.FuncEditor) (bb_id : BBId) :
    (((e.succ_edge_of_bb bb_id).foldl Editor.TacFunc.remove_edge e.func).edges).filter
      (fun ed => ed.2.1 = bb_id) = [] := by
  rw [foldl_remove_edge_edges, List.filter_filter, List.filter_eq_nil_iff]
  intro ed hmem
  intro hboth
  rw [Bool.and_eq_true, decide_eq_true_eq, decide_eq_true_eq] at hboth
  obtain ⟨hsrc, hkeep⟩ := hboth
  exact hkeep (List.mem_map.mpr ⟨ed, List.mem_filter.mpr ⟨hmem, by simp [hsrc]⟩, rfl⟩)

/-- Helper: the successor projection of the edges after removing the outgoing
edges of `bb_id` and re-adding one edge per element of `T` is exactly `T`. -/
theorem succ_after_remove_add (e : Editor.FuncEditor) (bb_id : BBId) (T : List BBId)
    (g : Editor.TacFunc)
    (hge : g.edges = ((e.succ_edge_of_bb bb_id).foldl Editor.TacFunc.remove_edge e.func).edges) :
    (((T.foldl (fun fc t => fc.add_edge bb_id t) g).edges).filter
        (fun ed => ed.2.1 = bb_id)).map (fun ed => ed.2.2) = T := by
  have h1 := foldl_add_edge_edges T bb_id g
  have h2 : (g.edges.map (fun ed => ed.2)).filter (fun pr => pr.1 = bb_id) = [] := by
    rw [map_proj_filter, hge, removed_edges_no_src]
    rfl
  have h3 : (((T.foldl (fun fc t => fc.add_edge bb_id t) g).edges).filter
        (fun ed => ed.2.1 = bb_id)).map (fun ed => ed.2.2)
      = ((((T.foldl (fun fc t => fc.add_edge bb_id t) g).edges).map
          (fun ed => ed.2)).filter (fun pr => pr.1 = bb_id)).map (fun pr => pr.2) := by
    rw [map_proj_filter, List.map_map]
    rfl
  rw [h3, h1, List.filter_append, h2, List.nil_append,
    List.filter_eq_self.mpr (by intro pr hpr; obtain ⟨t, ht, rfl⟩ := List.mem_map.mp hpr; simp),
    List.map_map]
  simp

/-- C5: for every live block `bb_id` and closure `f`, a successful
`modify_branch(bb_id, f)` leaves the jumps of `bb_id` exactly as `f` produced
them and recomputes the successor edges of `bb_id` to be exactly the targets
of those branches; in particular a closure that removes all branches clears
the successor edges. -/
theorem modify_branch_recomputes_succ (e : Editor.FuncEditor) (bb_id : BBId)
    (f : List Branch → List Branch) (bb : Editor.BasicBlock)
    (hbb : e.func.node_weight bb_id = some bb) :
    (e.modify_branch bb_id f).2 = .ok () ∧
    (e.modify_branch bb_id f).1.func.node_weight bb_id
      = some { bb with jumps := f bb.jumps } ∧
    (e.modify_branch bb_id f).1.succ_of_bb bb_id
      = ((f bb.jumps).map Branch.target_iter).flatten := by
  have hnw1 : Editor.TacFunc.node_weight
      ((e.succ_edge_of_bb bb_id).foldl Editor.TacFunc.remove_edge e.func) bb_id = some bb := by
    unfold Editor.TacFunc.node_weight
    rw [foldl_remove_edge_blocks]
    exact hbb
  unfold Editor.FuncEditor.modify_branch
  dsimp only
  rw [hnw1]
  dsimp only
  refine ⟨rfl, ?_, ?_⟩
  · unfold Editor.TacFunc.node_weight
    rw [foldl_add_edge_blocks]
    unfold Editor.TacFunc.set_block
    dsimp only
    rw [foldl_remove_edge_blocks]
    exact get?_set_same _ _ _ _ hbb
  · unfold Editor.FuncEditor.succ_of_bb
    dsimp only
    exact succ_after_remove_add e bb_id _ _ rfl

/-- Witness for C5: on the concrete editor `egEditor`, clearing the branches
of block 0 empties its jumps and successor edges. -/
theorem modify_branch_recomputes_succ_witness :
    (egEditor.modify_branch 0 (fun _ => [])).2 = .ok () ∧
    (egEditor.modify_branch 0 (fun _ => [])).1.func.node_weight 0 = some {} ∧
    (egEditor.modify_branch 0 (fun _ => [])).1.succ_of_bb 0 = [] :=
  modify_branch_recomputes_succ egEditor 0 (fun _ => []) { jumps := [.Jump 1] } rfl

/-- C6: for a block id that names no live block (and which therefore has no
outgoing edges), `modify_branch` returns `NoSuchBB` as a value and leaves the
editor (and its `TacFunc`) exactly as it was: no successor edge is removed and
no jumps list is changed. -/
theorem modify_branch_dead_bb (e : Editor.FuncEditor) (bb_id : BBId)
    (f : List Branch → List Branch)
    (hdead : e.func.node_weight bb_id = none)
    (hwf : ∀ ed ∈ e.func.edges, ed.2.1 ≠ bb_id) :
    e.modify_branch bb_id f = (e, .error (.NoSuchBB bb_id)) := by
  have hids : e.succ_edge_of_bb bb_id = [] := by
    unfold Editor.FuncEditor.succ_edge_of_bb
    rw [List.filter_eq_nil_iff.mpr ?hnone]
    · rfl
    case hnone =>
      intro ed hmem
      simp only [decide_eq_true_eq]
      exact hwf ed hmem
  unfold Editor.FuncEditor.modify_branch
  rw [hids]
  dsimp only [List.foldl_nil]
  rw [hdead]

/-- Witness for C6: block id 5 is not in `egEditor`; `modify_branch` fails
with `NoSuchBB 5` and returns the state unchanged. -/
theorem modify_branch_dead_bb_witness :
    egEditor.modify_branch 5 (fun _ => []) = (egEditor, .error (.NoSuchBB 5)) :=
  modify_branch_dead_bb egEditor 5 (fun _ => []) rfl (by decide)

/-- C7: repositioning the cursor twice onto the same live block is idempotent:
the second `set_current_bb` leaves the editor exactly as the first left it and
returns `unchanged = true`. -/
theorem set_current_bb_idempotent (e : Editor.FuncEditor) (x : BBId)
    (bb : Editor.BasicBlock) (hbb : e.func.node_weight x = some bb) :
    (e.set_current_bb x).1.set_current_bb x = ((e.set_current_bb x).1, .ok true) := by
  unfold Editor.FuncEditor.set_current_bb
  rw [hbb]
  dsimp only
  rw [show Editor.TacFunc.node_weight e.func x = some bb from hbb]
  simp

/-- Witness for C7 on the concrete editor `egEditor` and its block 0. -/
theorem set_current_bb_idempotent_witness :
    (egEditor.set_current_bb 0).1.set_current_bb 0
      = ((egEditor.set_current_bb 0).1, .ok true) :=
  set_current_bb_idempotent egEditor 0 { jumps := [.Jump 1] } rfl

/-- C10: `Branch::target_iter` yields no block for `Return` and exactly the
one target block for `Jump` and `CondJump`; consequently `add_branch` on a
live block records exactly one successor edge per target (so one for each
added `Jump` or `CondJump` and none for a `Return`) and appends the branch to
the jumps list. -/
theorem add_branch_records_targets (e : Editor.FuncEditor) (b : Branch) (bb_id : BBId)
    (bb : Editor.BasicBlock) (hbb : e.func.node_weight bb_id = some bb) :
    (∀ v, (Branch.Return v).target_iter = []) ∧
    (∀ t, (Branch.Jump t).target_iter = [t]) ∧
    (∀ c t, (Branch.CondJump c t).target_iter = [t]) ∧
    (e.add_branch b bb_id).2 = .ok () ∧
    ((e.add_branch b bb_id).1.func.edges.map fun ed => ed.2)
      = (e.func.edges.map fun ed => ed.2) ++ b.target_iter.map (fun t => (bb_id, t)) ∧
    (e.add_branch b bb_id).1.func.node_weight bb_id
      = some { bb with jumps := bb.jumps ++ [b] } := by
  refine ⟨fun v => rfl, fun t => rfl, fun c t => rfl, ?_, ?_, ?_⟩
  · unfold Editor.FuncEditor.add_branch
    rw [hbb]
  · unfold Editor.FuncEditor.add_branch
    rw [hbb]
    dsimp only
    unfold Editor.TacFunc.set_block
    dsimp only
    rw [foldl_add_edge_edges]
  · unfold Editor.FuncEditor.add_branch
    rw [hbb]
    dsimp only
    unfold Editor.TacFunc.node_weight Editor.TacFunc.set_block
    dsimp only
    rw [show (b.target_iter.foldl (fun fc t => fc.add_edge bb_id t) e.func).blocks
        = e.func.blocks from foldl_add_edge_blocks _ _ _]
    exact get?_set_same _ _ _ _ hbb

/-- Witness for C10: adding `Jump 1` to block 0 of `egEditor` records the one
edge `(0, 1)` and appends the branch. -/
theorem add_branch_records_targets_witness :
    (∀ v, (Branch.Return v).target_iter = []) ∧
    (∀ t, (Branch.Jump t).target_iter = [t]) ∧
    (∀ c t, (Branch.CondJump c t).target_iter = [t]) ∧
    (egEditor.add_branch (.Jump 1) 0).2 = .ok () ∧
    ((egEditor.add_branch (.Jump 1) 0).1.func.edges.map fun ed => ed.2)
      = (egEditor.func.edges.map fun ed => ed.2)
        ++ (Branch.Jump 1).target_iter.map (fun t => (0, t)) ∧
    (egEditor.add_branch (.Jump 1) 0).1.func.node_weight 0
      = some { jumps := [.Jump 1, .Jump 1] } :=
  add_branch_records_targets egEditor (.Jump 1) 0 { jumps := [.Jump 1] } rfl

/-- Helper: a successful `tac_set_after` only touches the instruction heap. -/
theorem tac_set_after_blocks (f g : Editor.TacFunc) (a x : InstId)
    (h : f.tac_set_after a x = some g) : g.blocks = f.blocks := by
  unfold Editor.TacFunc.tac_set_after at h
  cases hl : Editor.attach_after_insts f.insts a x with
  | none => rw [hl] at h; cases h
  | some l =>
    rw [hl] at h
    cases h
    rfl

/-- Helper: a successful `tac_set_before` only touches the instruction heap. -/
theorem tac_set_before_blocks (f g : Editor.TacFunc) (a x : InstId)
    (h : f.tac_set_before a x = some g) : g.blocks = f.blocks := by
  unfold Editor.TacFunc.tac_set_before at h
  cases hl : Editor.attach_before_insts f.insts a x with
  | none => rw [hl] at h; cases h
  | some l =>
    rw [hl] at h
    cases h
    rfl

/-- Helper: inserting after a cursor positioned at the tail of its block makes
the new instruction the block's tail and keeps the jumps list. -/
theorem insert_after_current_place_spec (e1 : Editor.FuncEditor) (inst : Inst)
    (e3 : Editor.FuncEditor) (pos : InstId) (bb : Editor.BasicBlock)
    (hbb : e1.func.node_weight e1.current_bb = some bb)
    (hcur : e1.current_idx = bb.tail)
    (hI : e1.insert_after_current_place inst = some (e3, pos)) :
    ∃ bb2, e3.func.node_weight e1.current_bb = some bb2 ∧
      bb2.tail = some pos ∧ bb2.jumps = bb.jumps := by
  unfold Editor.FuncEditor.insert_after_current_place at hI
  rw [show e1.func.tac_new inst e1.current_bb
      = ((e1.func.tac_new inst e1.current_bb).1, (e1.func.tac_new inst e1.current_bb).2)
      from rfl] at hI
  dsimp only at hI
  rw [hcur] at hI
  cases hc : bb.tail with
  | none =>
    rw [hc] at hI
    dsimp only at hI
    rw [show Editor.TacFunc.node_weight (e1.func.tac_new inst e1.current_bb).2 e1.current_bb
        = some bb from hbb] at hI
    dsimp only at hI
    injection hI with hI
    injection hI with hI1 hI2
    subst hI1
    subst hI2
    refine ⟨{ bb with head := some (e1.func.tac_new inst e1.current_bb).1,
                      tail := some (e1.func.tac_new inst e1.current_bb).1 }, ?_, rfl, rfl⟩
    exact get?_set_same _ _ _ _ hbb
  | some t =>
    rw [hc] at hI
    dsimp only at hI
    cases hs : Editor.TacFunc.tac_set_after (e1.func.tac_new inst e1.current_bb).2 t
        (e1.func.tac_new inst e1.current_bb).1 with
    | none => rw [hs] at hI; cases hI
    | some func2 =>
      rw [hs] at hI
      dsimp only at hI
      have hf2b0 : func2.blocks = (e1.func.tac_new inst e1.current_bb).2.blocks :=
        tac_set_after_blocks _ _ _ _ hs
      have hf2b : func2.blocks = e1.func.blocks := hf2b0
      have hnw2 : func2.node_weight e1.current_bb = some bb := by
        unfold Editor.TacFunc.node_weight
        rw [hf2b]
        exact hbb
      rw [hnw2] at hI
      dsimp only at hI
      rw [if_pos hc] at hI
      injection hI with hI
      injection hI with hI1 hI2
      subst hI1
      subst hI2
      refine ⟨{ bb with tail := some (e1.func.tac_new inst e1.current_bb).1 }, ?_, rfl, rfl⟩
      unfold Editor.TacFunc.node_weight Editor.TacFunc.set_block
      dsimp only
      rw [hf2b]
      exact get?_set_same _ _ _ _ hbb

/-- Helper: inserting before a cursor positioned at the head of its block
makes the new instruction the block's head and keeps the jumps list. -/
theorem insert_before_current_place_spec (e1 : Editor.FuncEditor) (inst : Inst)
    (e3 : Editor.FuncEditor) (pos : InstId) (bb : Editor.BasicBlock)
    (hbb : e1.func.node_weight e1.current_bb = some bb)
    (hcur : e1.current_idx = bb.head)
    (hI : e1.insert_before_current_place inst = some (e3, pos)) :
    ∃ bb2, e3.func.node_weight e1.current_bb = some bb2 ∧
      bb2.head = some pos ∧ bb2.jumps = bb.jumps := by
  unfold Editor.FuncEditor.insert_before_current_place at hI
  rw [show e1.func.tac_new inst e1.current_bb
      = ((e1.func.tac_new inst e1.current_bb).1, (e1.func.tac_new inst e1.current_bb).2)
      from rfl] at hI
  dsimp only at hI
  rw [hcur] at hI
  cases hc : bb.head with
  | none =>
    rw [hc] at hI
    dsimp only at hI
    rw [show Editor.TacFunc.node_weight (e1.func.tac_new inst e1.current_bb).2 e1.current_bb
        = some bb from hbb] at hI
    dsimp only at hI
    injection hI with hI
    injection hI with hI1 hI2
    subst hI1
    subst hI2
    refine ⟨{ bb with head := some (e1.func.tac_new inst e1.current_bb).1,
                      tail := some (e1.func.tac_new inst e1.current_bb).1 }, ?_, rfl, rfl⟩
    exact get?_set_same _ _ _ _ hbb
  | some t =>
    rw [hc] at hI
    dsimp only at hI
    cases hs : Editor.TacFunc.tac_set_before (e1.func.tac_new inst e1.current_bb).2 t
        (e1.func.tac_new inst e1.current_bb).1 with
    | none => rw [hs] at hI; cases hI
    | some func2 =>
      rw [hs] at hI
      dsimp only at hI
      have hf2b0 : func2.blocks = (e1.func.tac_new inst e1.current_bb).2.blocks :=
        tac_set_before_blocks _ _ _ _ hs
      have hf2b : func2.blocks = e1.func.blocks := hf2b0
      have hnw2 : func2.node_weight e1.current_bb = some bb := by
        unfold Editor.TacFunc.node_weight
        rw [hf2b]
        exact hbb
      rw [hnw2] at hI
      dsimp only at hI
      rw [if_pos hc] at hI
      injection hI with hI
      injection hI with hI1 hI2
      subst hI1
      subst hI2
      refine ⟨{ bb with head := some (e1.func.tac_new inst e1.current_bb).1 }, ?_, rfl, rfl⟩
      unfold Editor.TacFunc.node_weight Editor.TacFunc.set_block
      dsimp only
      rw [hf2b]
      exact get?_set_same _ _ _ _ hbb

/-- C8: for a live block `bb_id`, whenever its end position differs from the
editor's cursor, `insert_at_end_of` inserts the instruction at the end of
`bb_id` and leaves the cursor fields `current_bb` and `current_idx` exactly as
they were before the call; and independently, whenever its start position
differs from the cursor, `insert_at_start_of` does the same inserting at the
start.  Each operation carries only its own side condition. -/
theorem insert_at_preserves_cursor (e : Editor.FuncEditor) (inst : Inst) (bb_id : BBId)
    (bb : Editor.BasicBlock) (hbb : e.func.node_weight bb_id = some bb) :
    (¬(bb_id = e.current_bb ∧ bb.tail = e.current_idx) →
      ∀ e2 pos, e.insert_at_end_of inst bb_id = some (e2, .ok pos) →
      e2.current_bb = e.current_bb ∧ e2.current_idx = e.current_idx ∧
      ∃ bb2, e2.func.node_weight bb_id = some bb2 ∧ bb2.tail = some pos ∧
        bb2.jumps = bb.jumps) ∧
    (¬(bb_id = e.current_bb ∧ bb.head = e.current_idx) →
      ∀ e2 pos, e.insert_at_start_of inst bb_id = some (e2, .ok pos) →
      e2.current_bb = e.current_bb ∧ e2.current_idx = e.current_idx ∧
      ∃ bb2, e2.func.node_weight bb_id = some bb2 ∧ bb2.head = some pos ∧
        bb2.jumps = bb.jumps) := by
  constructor
  · intro hend e2 pos h
    unfold Editor.FuncEditor.insert_at_end_of Editor.FuncEditor.set_current_bb at h
    rw [hbb] at h
    dsimp only at h
    rw [decide_eq_false hend] at h
    cases hA : Editor.FuncEditor.insert_after_current_place
        { e with current_bb := bb_id, current_idx := bb.tail } inst with
    | none => rw [hA] at h; cases h
    | some p =>
      rw [hA] at h
      dsimp only at h
      rw [if_neg Bool.false_ne_true] at h
      injection h with h
      injection h with h1 h2
      injection h2 with h2
      subst h1
      subst h2
      obtain ⟨bb2, hnw, htl, hj⟩ :=
        insert_after_current_place_spec
          { e with current_bb := bb_id, current_idx := bb.tail } inst p.1 p.2 bb hbb rfl
          (by rw [← hA])
      exact ⟨rfl, rfl, bb2, hnw, htl, hj⟩
  · intro hstart e2 pos h
    unfold Editor.FuncEditor.insert_at_start_of Editor.FuncEditor.set_current_bb_start at h
    rw [hbb] at h
    dsimp only at h
    rw [decide_eq_false hstart] at h
    cases hA : Editor.FuncEditor.insert_before_current_place
        { e with current_bb := bb_id, current_idx := bb.head } inst with
    | none => rw [hA] at h; cases h
    | some p =>
      rw [hA] at h
      dsimp only at h
      rw [if_neg Bool.false_ne_true] at h
      injection h with h
      injection h with h1 h2
      injection h2 with h2
      subst h1
      subst h2
      obtain ⟨bb2, hnw, htl, hj⟩ :=
        insert_before_current_place_spec
          { e with current_bb := bb_id, current_idx := bb.head } inst p.1 p.2 bb hbb rfl
          (by rw [← hA])
      exact ⟨rfl, rfl, bb2, hnw, htl, hj⟩

/-- Witness for C8 on `egEditor`, inserting into block 1 while the cursor sits
in block 0: both side conditions are discharged at this input. -/
theorem insert_at_preserves_cursor_witness :
    (∀ e2 pos, egEditor.insert_at_end_of (mkAssign 9) 1 = some (e2, .ok pos) →
      e2.current_bb = egEditor.current_bb ∧ e2.current_idx = egEditor.current_idx ∧
      ∃ bb2, e2.func.node_weight 1 = some bb2 ∧ bb2.tail = some pos ∧
        bb2.jumps = []) ∧
    (∀ e2 pos, egEditor.insert_at_start_of (mkAssign 9) 1 = some (e2, .ok pos) →
      e2.current_bb = egEditor.current_bb ∧ e2.current_idx = egEditor.current_idx ∧
      ∃ bb2, e2.func.node_weight 1 = some bb2 ∧ bb2.head = some pos ∧
        bb2.jumps = []) :=
  ⟨(insert_at_preserves_cursor egEditor (mkAssign 9) 1 {} rfl).1 (by decide),
   (insert_at_preserves_cursor egEditor (mkAssign 9) 1 {} rfl).2 (by decide)⟩

/-- C3: lowering an if statement leaves the condition block `C` ending with
`CondJump(cond, then_bb)` followed by `Jump(next_bb)`, but `C` is NOT marked
filled before the then-branch is built: `visit_if_stmt` calls
`mark_sealed(last_bb)` twice (source lines 166-167) and never `mark_filled`,
contradicting the module's own comment that blocks are marked filled and
sealed.  Shown on a fresh one-block state lowering an if with condition 1,
empty then-branch and no else-branch. -/
theorem visit_if_stmt_seals_but_never_fills :
    (0 ∈ (Gen.if_state_before_then Gen.genS0 (.Imm 1)).sealed ∧
     0 ∉ (Gen.if_state_before_then Gen.genS0 (.Imm 1)).filled) ∧
    ((Gen.visit_if_stmt Gen.genS0 (.Imm 1) id none).blocks.get? 0).map Gen.BasicBlock.jumps
      = some [.CondJump (.Imm 1) (Gen.empty_jump_target 1),
              .Jump (Gen.empty_jump_target 2)] := by
  refine ⟨⟨by decide, by decide⟩, by decide⟩

/-- Counterexample for C4: on a fresh one-block state, lowering `return;` does
NOT mark the current block filled, so the claim as stated is false at this
input. -/
theorem visit_return_stmt_not_filled :
    ¬ (Gen.genS0.current_bb ∈ (Gen.visit_return_stmt Gen.genS0 none).filled) := by
  decide

/-- C4 (amended): lowering a return statement emits `Return(val)` as a branch
of the current block and moves the cursor into a freshly created empty block
whose id did not exist before; the filled and sealed sets are unchanged — the
code does not mark the block filled. -/
theorem visit_return_stmt_amended (s : Gen.FuncBuilder) (val : Option Value)
    (b : Gen.BasicBlock) (hbb : s.blocks.get? s.current_bb = some b) :
    (Gen.visit_return_stmt s val).current_bb = s.blocks.length ∧
    s.blocks.get? (Gen.visit_return_stmt s val).current_bb = none ∧
    (Gen.visit_return_stmt s val).blocks.get? (Gen.visit_return_stmt s val).current_bb
      = some {} ∧
    (Gen.visit_return_stmt s val).blocks.get? s.current_bb
      = some { b with jumps := b.jumps ++ [.Return val] } ∧
    (Gen.visit_return_stmt s val).filled = s.filled ∧
    (Gen.visit_return_stmt s val).sealed = s.sealed := by
  have hlen : s.current_bb < s.blocks.length := by
    by_contra hn
    push_neg at hn
    rw [List.get?_eq_none.mpr hn] at hbb
    cases hbb
  unfold Gen.visit_return_stmt Gen.FuncBuilder.add_branch
  rw [hbb]
  dsimp only [Gen.FuncBuilder.new_bb, Gen.FuncBuilder.set_current_bb]
  refine ⟨?_, ?_, ?_, ?_, rfl, rfl⟩
  · exact List.length_set _ _ _
  · rw [List.length_set]
    exact List.get?_eq_none.mpr (le_refl _)
  · rw [List.get?_eq_getElem?]
    exact List.getElem?_concat_length _ _
  · rw [List.get?_eq_getElem?, List.getElem?_append,
      if_pos (by rw [List.length_set]; exact hlen), ← List.get?_eq_getElem?]
    exact get?_set_same _ _ _ _ hbb

/-- Witness for the amended C4 on a fresh one-block state. -/
theorem visit_return_stmt_amended_witness :
    (Gen.visit_return_stmt Gen.genS0 none).current_bb = Gen.genS0.blocks.length ∧
    Gen.genS0.blocks.get? (Gen.visit_return_stmt Gen.genS0 none).current_bb = none ∧
    (Gen.visit_return_stmt Gen.genS0 none).blocks.get?
        (Gen.visit_return_stmt Gen.genS0 none).current_bb = some {} ∧
    (Gen.visit_return_stmt Gen.genS0 none).blocks.get? Gen.genS0.current_bb
      = some { jumps := [.Return none] } ∧
    (Gen.visit_return_stmt Gen.genS0 none).filled = Gen.genS0.filled ∧
    (Gen.visit_return_stmt Gen.genS0 none).sealed = Gen.genS0.sealed :=
  visit_return_stmt_amended Gen.genS0 none {} rfl
